import Mathlib

/-!
Verification of the CommonServerPython utility library and the
ExtractIndicatorsTransformer script.

The Python sources are shallowly embedded: Python values are modelled by the
inductive type `PyVal`, Python dictionaries by insertion-ordered association
lists, fallible code by `Option`/`Except`, and the opaque host runtime (the
`demisto` object, `json`, `re`, `tldextract`) by explicit function parameters.
Every definition mirrors the corresponding Python function from the source
tree; deviations forced by totality are noted in the comments.
-/

mutual

/-- Model of a Python value (the JSON-able fragment used by the library).
`PyList` and `PyDict` are mutually defined clones of `List` so that
`DecidableEq` can be derived; conversions to ordinary lists follow. -/
inductive PyVal where
  | str (s : String)
  | int (n : Int)
  | bool (b : Bool)
  | none
  | list (xs : PyList)
  | dict (xs : PyDict)
  deriving DecidableEq

/-- Spine of a Python list of `PyVal`, mutually defined with `PyVal`. -/
inductive PyList where
  | nil
  | cons (hd : PyVal) (tl : PyList)
  deriving DecidableEq

/-- Spine of a Python dict with string keys, mutually defined with `PyVal`.
Entries are kept in insertion order, as Python dicts do. -/
inductive PyDict where
  | nil
  | cons (key : String) (val : PyVal) (tl : PyDict)
  deriving DecidableEq

end

/-- Convert the `PyList` spine to an ordinary Lean list. -/
def PyList.toList : PyList → List PyVal
  | .nil => []
  | .cons h t => h :: t.toList

/-- Build a `PyList` spine from an ordinary Lean list. -/
def PyList.ofList : List PyVal → PyList
  | [] => .nil
  | h :: t => .cons h (PyList.ofList t)

/-- Convert the `PyDict` spine to an association list. -/
def PyDict.toList : PyDict → List (String × PyVal)
  | .nil => []
  | .cons k v t => (k, v) :: t.toList

/-- Build a `PyDict` spine from an association list. -/
def PyDict.ofList : List (String × PyVal) → PyDict
  | [] => .nil
  | (k, v) :: t => .cons k v (PyDict.ofList t)

/-- A Python dict with string keys, viewed as an insertion-ordered
association list. -/
abbrev PyObj := List (String × PyVal)

/-- Python dict lookup `d.get(k)` on an insertion-ordered association list.
The operations below keep keys unique, so the first hit is the binding. -/
def alGet {κ β : Type} [DecidableEq κ] : List (κ × β) → κ → Option β
  | [], _ => Option.none
  | (k', v) :: rest, k => if k' = k then some v else alGet rest k

/-- Python dict lookup with a default, `d.get(k, dflt)`. -/
def alGetD {κ β : Type} [DecidableEq κ] (d : List (κ × β)) (k : κ) (dflt : β) : β :=
  (alGet d k).getD dflt

/-- Python dict assignment `d[k] = v`: replaces the binding in place when the
key exists (keeping its position), otherwise appends the new binding. -/
def alSet {κ β : Type} [DecidableEq κ] : List (κ × β) → κ → β → List (κ × β)
  | [], k, v => [(k, v)]
  | (k', v') :: rest, k, v =>
      if k' = k then (k, v) :: rest else (k', v') :: alSet rest k v

/-- Python `d.update(u)`: assign every binding of `u` into `d`, in order. -/
def alUpdate {κ β : Type} [DecidableEq κ] (d u : List (κ × β)) : List (κ × β) :=
  u.foldl (fun acc kv => alSet acc kv.1 kv.2) d

/-- The keys of an association list, in order. -/
def alKeys {κ β : Type} (d : List (κ × β)) : List κ :=
  d.map Prod.fst

/-- Python strict string comparison `a < b` on lists of characters:
lexicographic by code point. -/
def strLtChars : List Char → List Char → Bool
  | [], [] => false
  | [], _ :: _ => true
  | _ :: _, [] => false
  | a :: as, b :: bs =>
      if a.toNat < b.toNat then true
      else if a.toNat = b.toNat then strLtChars as bs
      else false

/-- Python string comparison `a < b` (lexicographic by code point). -/
def pyStrLt (a b : String) : Bool :=
  strLtChars a.toList b.toList

/-- Python string comparison `a <= b`. -/
def pyStrLe (a b : String) : Bool :=
  pyStrLt a b || a == b

/-- Is `needle` a prefix of `hay`? Helper for the Python substring test. -/
def charsIsPrefix : List Char → List Char → Bool
  | [], _ => true
  | _ :: _, [] => false
  | a :: as, b :: bs => a = b && charsIsPrefix as bs

/-- Helper for `strIn`: substring test on lists of characters. -/
def charsContains : List Char → List Char → Bool
  | needle, [] => needle.isEmpty
  | needle, c :: rest =>
      charsIsPrefix needle (c :: rest) || charsContains needle rest

/-- The Python string membership test `needle in hay`: `needle` occurs as a
contiguous substring of `hay` (the empty string is in every string). -/
def strIn (needle hay : String) : Bool :=
  charsContains needle.toList hay.toList

/-! ### Integration-context update protocol
From `src/Packs/Base/Scripts/CommonServerPython/CommonServerPython.py`. -/

/-- `CONTEXT_UPDATE_RETRY_TIMES = 3` from the source. -/
def CONTEXT_UPDATE_RETRY_TIMES : Nat := 3

/-- The exception message raised by `set_to_integration_context_with_retries`
when the attempt limit is reached. -/
def maxRetryMsg : String :=
  "Failed updating integration context. Max retry attempts exceeded."

/-- The retry loop of `set_to_integration_context_with_retries`, entered with
the current `attempt` counter.  The host interaction of one iteration
(`update_integration_context` followed by `set_integration_context`) is
abstracted by the oracle `succeeds`: `succeeds i = true` means the i-th call
to `set_integration_context` returns normally, `false` means it raises
`ValueError` (the only exception the loop catches).  The pair returned is the
outcome (`.ok ()` for the `None` return, `.error` for the raised exception)
together with the number of `set_integration_context` calls performed.
The source guard is `attempt == max_retry_times`; since the loop starts at
attempt 0 and increments by exactly 1, the first attempt value reaching
`max_retry_times` is equal to it, so the `≥` guard below computes the same
function while making termination evident. -/
def set_to_integration_context_from (succeeds : Nat → Bool)
    (max_retry_times attempt : Nat) : Except String Unit × Nat :=
  if _h : max_retry_times ≤ attempt then
    (Except.error maxRetryMsg, 0)
  else
    -- attempt += 1; try: set_integration_context(...)
    if succeeds attempt then
      (Except.ok (), 1)
    else
      -- except ValueError: sleep a random time and loop again
      let p := set_to_integration_context_from succeeds max_retry_times (attempt + 1)
      (p.1, p.2 + 1)
termination_by max_retry_times - attempt
decreasing_by omega

/-- `set_to_integration_context_with_retries(context, object_keys, sync,
max_retry_times)`: run the retry loop from attempt 0. -/
def set_to_integration_context_with_retries (succeeds : Nat → Bool)
    (max_retry_times : Nat := CONTEXT_UPDATE_RETRY_TIMES) : Except String Unit × Nat :=
  set_to_integration_context_from succeeds max_retry_times 0

/-! ### ExtractIndicatorsTransformer.filter_types
From `src/Packs/ExtractIndicatorsTransformer/Scripts/ExtractIndicatorsTransformer/ExtractIndicatorsTransformer.py`. -/

/-- Python `str.lower()` restricted to ASCII, character by character. -/
def pyCharLower (c : Char) : Char :=
  if 65 ≤ c.toNat ∧ c.toNat ≤ 90 then Char.ofNat (c.toNat + 32) else c

/-- Python `s.lower()` (ASCII range; the indicator-type names in play are
ASCII). -/
def pyLower (s : String) : String :=
  String.mk (s.toList.map pyCharLower)

/-- Helper for `pySplitComma`: accumulate the current piece in reverse. -/
def splitCommaAux (acc : List Char) : List Char → List String
  | [] => [String.mk acc.reverse]
  | c :: rest =>
      if c = ',' then String.mk acc.reverse :: splitCommaAux [] rest
      else splitCommaAux (c :: acc) rest

/-- Python `s.split(',')`. -/
def pySplitComma (s : String) : List String :=
  splitCommaAux [] s.toList

/-- ASCII whitespace, for `str.strip()`. -/
def pyIsSpace (c : Char) : Bool :=
  c = ' ' || c = '\t' || c = '\n' || c = '\r'

/-- Python `s.strip()` (ASCII whitespace). -/
def pyStrip (s : String) : String :=
  String.mk (((s.toList.dropWhile pyIsSpace).reverse.dropWhile pyIsSpace).reverse)

/-- `filter_types(extracted_indicators, indicators_types)`.  The first source
line builds `list(map(lambda x: x.lower(), argToList(indicators_types)))` and
discards the result, so it has no effect on the returned dict; the dict
comprehension keeps an entry when `ind_type.lower() in indicators_types`,
which is the substring test on the raw string. -/
def filter_types (extracted_indicators : List (String × PyVal))
    (indicators_types : String) : List (String × PyVal) :=
  extracted_indicators.filter fun p => strIn (pyLower p.1) indicators_types

/-- The filter as the claim words would have it were it a case-insensitive
membership test: keep an entry when its lower-cased type occurs in the
lower-cased comma-separated list (the `argToList` split, which strips each
piece).  This definition follows the claim words, not the source; it is used
only to exhibit that `filter_types` differs from it. -/
def filter_types_listMembership (extracted_indicators : List (String × PyVal))
    (indicators_types : String) : List (String × PyVal) :=
  let lowered := (pySplitComma indicators_types).map fun s => pyLower (pyStrip s)
  extracted_indicators.filter fun p => lowered.contains (pyLower p.1)

/-! ### The demisto host and server-version comparison -/

/-- The `demistoVersion` record of the host: the `version` string and the
`buildNumber`, the latter already parsed by `int(...)` (`Option.none` models a
build-number string that `int(...)` rejects with `ValueError`). -/
structure DVer where
  version : String
  buildNumber : Option Int

/-- The opaque `demisto` host object, reduced to the data the embedded
functions consume.  `demistoVersion = Option.none` models a pre-5.0 server
whose `demisto.demistoVersion` raises `AttributeError`. -/
structure Demisto where
  demistoVersion : Option DVer
  /-- Host state returned by `demisto.getIntegrationContextVersioned(sync)`. -/
  integrationContextVersioned : PyObj
  /-- Host state returned by `demisto.getIntegrationContext()`. -/
  integrationContext : PyVal

/-- `is_demisto_version_ge(version, build_number)`.  Mirrors the source:
server version strictly greater (Python string comparison) returns `True`;
equal version with a non-empty `build_number` argument compares build numbers
as ints, where a `ValueError` from `int(server buildNumber)` is caught and
yields `True`; equal version with no build number yields `True`; smaller
version yields `False`.  On `AttributeError` (pre-5.0 server) the source
returns `False` when the asked version is at least "5.0.0" and re-raises
otherwise; the re-raise is `Except.error ()`.  The `build_number` argument is
`Option.none` for the source default `''`. -/
def is_demisto_version_ge (d : Demisto) (version : String)
    (build_number : Option Int := Option.none) : Except Unit Bool :=
  match d.demistoVersion with
  | some sv =>
      if pyStrLt version sv.version then Except.ok true
      else if sv.version = version then
        match build_number with
        | some bn =>
            match sv.buildNumber with
            | some sbn => Except.ok (bn ≤ sbn)
            | Option.none => Except.ok true
        | Option.none => Except.ok true
      else Except.ok false
  | Option.none =>
      if pyStrLe "5.0.0" version then Except.ok false else Except.error ()

/-- `MIN_VERSION_FOR_VERSIONED_CONTEXT = '6.0.0'` from the source. -/
def MIN_VERSION_FOR_VERSIONED_CONTEXT : String := "6.0.0"

/-- `is_versioned_context_available()`: whether the server version is at
least `MIN_VERSION_FOR_VERSIONED_CONTEXT`. -/
def is_versioned_context_available (d : Demisto) : Except Unit Bool :=
  is_demisto_version_ge d MIN_VERSION_FOR_VERSIONED_CONTEXT

/-- The host RPC performed by `set_integration_context`. -/
inductive SetCtxCall where
  | versioned (context : PyObj) (version : Int) (sync : Bool)
  | plain (context : PyObj)
  deriving DecidableEq

/-- The host RPC performed by the read in `get_integration_context`. -/
inductive GetCtxCall where
  | versioned (sync : Bool)
  | plain
  deriving DecidableEq

/-- `set_integration_context(context, sync, version)`: dispatches to
`demisto.setIntegrationContextVersioned(context, version, sync)` when
versioned context is available and to `demisto.setIntegrationContext(context)`
otherwise.  The value returned is the RPC that was issued. -/
def set_integration_context (d : Demisto) (context : PyObj)
    (sync : Bool := true) (version : Int := -1) : Except Unit SetCtxCall := do
  let b ← is_versioned_context_available d
  if b then
    pure (SetCtxCall.versioned context version sync)
  else
    pure (SetCtxCall.plain context)

/-- `get_integration_context(sync, with_version)`: reads through
`demisto.getIntegrationContextVersioned(sync)` when versioned context is
available (returning the whole versioned record or just its `context` entry,
depending on `with_version`) and through `demisto.getIntegrationContext()`
otherwise.  The result pairs the RPC issued with the value returned. -/
def get_integration_context (d : Demisto) (sync : Bool := true)
    (with_version : Bool := false) : Except Unit (GetCtxCall × PyVal) := do
  let b ← is_versioned_context_available d
  if b then
    let ic := d.integrationContextVersioned
    if with_version then
      pure (GetCtxCall.versioned sync, PyVal.dict (PyDict.ofList ic))
    else
      pure (GetCtxCall.versioned sync, alGetD ic "context" (PyVal.dict PyDict.nil))
  else
    pure (GetCtxCall.plain, d.integrationContext)

/-! ### auto_detect_indicator_type -/

/-- The regexes `auto_detect_indicator_type` tests, named after the source
constants.  Their pattern texts live in the `re` library world; matching is
abstracted by an oracle `String → Bool` per regex below. -/
inductive RegexId where
  | ipv4cidrRegex
  | ipv6cidrRegex
  | ipv4Regex
  | ipv6Regex
  | sha256Regex
  | urlRegex
  | md5Regex
  | sha1Regex
  | emailRegex
  | cveRegex
  | sha512Regex
  deriving DecidableEq

/-- The constants of `class FeedIndicatorType` used by the detector. -/
def FeedIndicatorType.CIDR : String := "CIDR"

/-- `FeedIndicatorType.IPv6CIDR`. -/
def FeedIndicatorType.IPv6CIDR : String := "IPv6CIDR"

/-- `FeedIndicatorType.IP`. -/
def FeedIndicatorType.IP : String := "IP"

/-- `FeedIndicatorType.IPv6`. -/
def FeedIndicatorType.IPv6 : String := "IPv6"

/-- `FeedIndicatorType.File`. -/
def FeedIndicatorType.File : String := "File"

/-- `FeedIndicatorType.URL`. -/
def FeedIndicatorType.URL : String := "URL"

/-- `FeedIndicatorType.Email`. -/
def FeedIndicatorType.Email : String := "Email"

/-- `FeedIndicatorType.CVE`. -/
def FeedIndicatorType.CVE : String := "CVE"

/-- `FeedIndicatorType.Domain`. -/
def FeedIndicatorType.Domain : String := "Domain"

/-- `FeedIndicatorType.DomainGlob`. -/
def FeedIndicatorType.DomainGlob : String := "DomainGlob"

/-- `auto_detect_indicator_type(indicator_value)`.  `reMatch r v` abstracts
`re.match(rRegex, v)`; `extract v` abstracts the guarded
`tldextract.TLDExtract(...)(v).suffix` call, where `Option.none` models an
exception caught by the surrounding `try` and `some s` the extracted suffix
string (`""` when no suffix was found).  The result is `some` of the detected
`FeedIndicatorType` constant, or `Option.none` for the final `return None`. -/
def auto_detect_indicator_type (reMatch : RegexId → String → Bool)
    (extract : String → Option String) (indicator_value : String) :
    Option String :=
  if reMatch .ipv4cidrRegex indicator_value then some FeedIndicatorType.CIDR
  else if reMatch .ipv6cidrRegex indicator_value then some FeedIndicatorType.IPv6CIDR
  else if reMatch .ipv4Regex indicator_value then some FeedIndicatorType.IP
  else if reMatch .ipv6Regex indicator_value then some FeedIndicatorType.IPv6
  else if reMatch .sha256Regex indicator_value then some FeedIndicatorType.File
  else if reMatch .urlRegex indicator_value then some FeedIndicatorType.URL
  else if reMatch .md5Regex indicator_value then some FeedIndicatorType.File
  else if reMatch .sha1Regex indicator_value then some FeedIndicatorType.File
  else if reMatch .emailRegex indicator_value then some FeedIndicatorType.Email
  else if reMatch .cveRegex indicator_value then some FeedIndicatorType.CVE
  else if reMatch .sha512Regex indicator_value then some FeedIndicatorType.File
  else
    match extract indicator_value with
    | some suffix =>
        if suffix ≠ "" then
          if indicator_value.contains '*' then some FeedIndicatorType.DomainGlob
          else some FeedIndicatorType.Domain
        else Option.none
    | Option.none => Option.none

/-- The fixed test order of the regexes together with the type each one
yields, exactly as the chain of `if re.match(...)` statements reads. -/
def detectionOrder : List (RegexId × String) :=
  [(.ipv4cidrRegex, FeedIndicatorType.CIDR),
   (.ipv6cidrRegex, FeedIndicatorType.IPv6CIDR),
   (.ipv4Regex, FeedIndicatorType.IP),
   (.ipv6Regex, FeedIndicatorType.IPv6),
   (.sha256Regex, FeedIndicatorType.File),
   (.urlRegex, FeedIndicatorType.URL),
   (.md5Regex, FeedIndicatorType.File),
   (.sha1Regex, FeedIndicatorType.File),
   (.emailRegex, FeedIndicatorType.Email),
   (.cveRegex, FeedIndicatorType.CVE),
   (.sha512Regex, FeedIndicatorType.File)]

/-! ### IndicatorsSearcher -/

/-- Is a `PyVal` one of the empty values `assign_params` drops
(`None` is handled by `Option` at the call sites; `''`, `[]`, `{}` here;
tuples are not modelled). -/
def pyEmptyVal : PyVal → Bool
  | .str "" => true
  | .list .nil => true
  | .dict .nil => true
  | _ => false

/-- Drop an optional argument the way `assign_params` does: `None` and the
empty values disappear. -/
def dropEmpty (v : Option PyVal) : Option PyVal :=
  match v with
  | some v => if pyEmptyVal v then Option.none else some v
  | Option.none => Option.none

/-- The keyword arguments `search_indicators_by_version` hands to
`demisto.searchIndicators` after the `assign_params` filtering; a field that
is `Option.none` is an argument that was dropped.  `size` and `page` are ints
and ints are never dropped by `assign_params` (no int equals `None`, `''`,
`[]`, `{}` or `()`), so a present `page` is modelled by `some`. -/
structure SearchArgs where
  fromDate : Option PyVal
  toDate : Option PyVal
  query : Option PyVal
  size : Int
  value : Option PyVal
  searchAfter : Option PyVal
  populateFields : Option PyVal
  page : Option Int
  deriving DecidableEq

/-- The dict `demisto.searchIndicators` answers with, reduced to the keys the
searcher reads: `iocs` (a list, or `None`/absent), `searchAfter` and
`total`. -/
structure SearchRes where
  iocs : Option (List PyVal)
  searchAfter : Option PyVal
  total : Option Int

/-- The mutable state of an `IndicatorsSearcher` (the underscore-prefixed
attributes of the Python class, minus the leading underscores). -/
structure IndicatorsSearcher where
  canUseSearchAfter : Bool
  canUseFilterFields : Bool
  searchAfterParam : Option PyVal
  /-- `_page`; the claims under study fix it to an int, so the
  `isinstance(self._page, int)` guard in the source is always true here. -/
  page : Int
  filterFields : Option PyVal
  total : Option Int
  fromDate : Option PyVal
  query : Option PyVal
  size : Int
  toDate : Option PyVal
  value : Option PyVal
  limit : Option Int
  totalIocsFetched : Nat

/-- `IndicatorsSearcher.__init__`: the two capability flags come from
`is_demisto_version_ge` on the host (the build-number comparison for
`populateFields` uses build 1095800).  The error branch of
`is_demisto_version_ge` is unreachable for the versions "6.1.0" asked here,
since they are at least "5.0.0"; it is mapped to `false`. -/
def IndicatorsSearcher.init (d : Demisto) (page : Int := 0)
    (filter_fields : Option PyVal := Option.none)
    (from_date : Option PyVal := Option.none)
    (query : Option PyVal := Option.none) (size : Int := 100)
    (to_date : Option PyVal := Option.none)
    (value : Option PyVal := some (PyVal.str ""))
    (limit : Option Int := Option.none) : IndicatorsSearcher :=
  { canUseSearchAfter :=
      match is_demisto_version_ge d "6.1.0" with
      | .ok b => b
      | .error _ => false
    canUseFilterFields :=
      match is_demisto_version_ge d "6.1.0" (some 1095800) with
      | .ok b => b
      | .error _ => false
    searchAfterParam := Option.none
    page := page
    filterFields := filter_fields
    total := Option.none
    fromDate := from_date
    query := query
    size := size
    toDate := to_date
    value := value
    limit := limit
    totalIocsFetched := 0 }

/-- The `assign_params(...)` call inside `search_indicators_by_version`,
with the method parameters `from_date`, `query`, `size`, `to_date`, `value`
and the searcher state `s`.  `searchAfter` is the stored cursor only when the
server can use it, `populateFields` only with the filter-fields capability,
and `page` is the fallback used exactly when `searchAfter` cannot be used. -/
def mkSearchArgs (s : IndicatorsSearcher) (from_date to_date query value : Option PyVal)
    (size : Int) : SearchArgs :=
  { fromDate := dropEmpty from_date
    toDate := dropEmpty to_date
    query := dropEmpty query
    size := size
    value := dropEmpty value
    searchAfter := dropEmpty (if s.canUseSearchAfter then s.searchAfterParam else Option.none)
    populateFields := dropEmpty (if s.canUseFilterFields then s.filterFields else Option.none)
    page := if ¬s.canUseSearchAfter then some s.page else Option.none }

/-- `search_indicators_by_version(from_date, query, size, to_date, value)`:
build the arguments, call the host, then advance `_page` (the `isinstance`
guard holds since `page` is an int here), store the new `searchAfter` cursor
and `total`.  Returns the host response and the new state. -/
def search_indicators_by_version (host : SearchArgs → SearchRes)
    (s : IndicatorsSearcher) (from_date to_date query value : Option PyVal)
    (size : Int) : SearchRes × IndicatorsSearcher :=
  let args := mkSearchArgs s from_date to_date query value size
  let res := host args
  (res, { s with
            page := s.page + 1
            searchAfterParam := res.searchAfter
            total := res.total })

/-- The `else` part of `is_search_done()`: the limit was not reached.  When
`self.total` was never populated the search is not done; otherwise, in the
search-after mode the condition is the Python truthiness of
`self.total and self._search_after_param is None`, and in the paging mode it
is `self.total <= self.page * self._size`. -/
def isSearchDoneNoLimit (s : IndicatorsSearcher) : Bool × IndicatorsSearcher :=
  match s.total with
  | Option.none => (false, s)
  | some t =>
      let no_more_indicators :=
        if s.canUseSearchAfter then t != 0 && s.searchAfterParam == Option.none
        else decide (t ≤ s.page * s.size)
      (no_more_indicators, s)

/-- `is_search_done()`.  Returns the decision together with the state, since
the reached-limit branch also writes `self.limit` when the fetched count
overshoots it (`reached_limit` is Python
`self.limit is not None and self.limit <= self._total_iocs_fetched`). -/
def is_search_done (s : IndicatorsSearcher) : Bool × IndicatorsSearcher :=
  match s.limit with
  | some l =>
      if decide (l ≤ (s.totalIocsFetched : Int)) then
        (true,
         if decide ((s.totalIocsFetched : Int) > l) then
           { s with limit := some (s.totalIocsFetched : Int) }
         else s)
      else isSearchDoneNoLimit s
  | Option.none => isSearchDoneNoLimit s

/-- `__next__()`: stop when `is_search_done` says so (keeping its write to
`limit`), otherwise search with the stored parameters; an empty `iocs` answer
(`res.get('iocs') or []` empty) stops without touching `_total_iocs_fetched`,
otherwise the fetched count grows by the number of iocs and the response is
yielded. -/
def searcherNext (host : SearchArgs → SearchRes) (s : IndicatorsSearcher) :
    Option SearchRes × IndicatorsSearcher :=
  let done := is_search_done s
  if done.1 then (Option.none, done.2)
  else
    let step := search_indicators_by_version host done.2 s.fromDate s.toDate s.query s.value s.size
    let fetched_len := (step.1.iocs.getD []).length
    if fetched_len = 0 then (Option.none, step.2)
    else (some step.1, { step.2 with totalIocsFetched := step.2.totalIocsFetched + fetched_len })

/-- The state after `k` further `__next__` calls. -/
def searcherIter (host : SearchArgs → SearchRes) (s : IndicatorsSearcher) :
    Nat → IndicatorsSearcher
  | 0 => s
  | k + 1 => searcherIter host (searcherNext host s).2 k

/-! ### merge_lists and update_integration_context -/

/-- Build the dict comprehension given in the source as
`{element[key]: element for element in some_list}`: fold the list, mapping
the value each element holds at `key` to the element itself.  A missing key
is the `KeyError` the subscript raises, hence `Option`. -/
def keyedDict (l : List PyObj) (key : String) : Option (List (PyVal × PyObj)) :=
  l.foldlM (fun acc element => (alGet element key).map fun kv => alSet acc kv element) []

/-- The `obj.get('remove', False) is False` test of `merge_lists`: a Python
identity test, true exactly for the value `False` itself (absence of the
field defaults to `False`).  A present value such as `0` or a string is
neither `is False` nor `is True`. -/
def keepsElement (obj : PyObj) : Bool :=
  alGetD obj "remove" (PyVal.bool false) == PyVal.bool false

/-- `merge_lists(original_list, updated_list, key)`: key both lists by the
value at `key`, overwrite the original dict with the updated one
(`original_dict.update(updated_dict)`), then keep the values whose
`remove` field `is False`.  (The `removed` list the source also computes is
only fed to `demisto.debug`.) -/
def merge_lists (original_list updated_list : List PyObj) (key : String) :
    Option (List PyObj) := do
  let original_dict ← keyedDict original_list key
  let updated_dict ← keyedDict updated_list key
  let merged := alUpdate original_dict updated_dict
  pure ((merged.map Prod.snd).filter keepsElement)

/-- Coerce a decoded JSON value to the list of dicts `merge_lists` iterates
over; any other shape would make the Python dict comprehension raise. -/
def asObjList : PyVal → Option (List PyObj)
  | .list xs => xs.toList.mapM fun v =>
      match v with
      | .dict d => some d.toList
      | _ => Option.none
  | _ => Option.none

/-- One iteration of the `for key, _ in context.items()` loop of
`update_integration_context`, acting on the evolving `integration_context`
dict (keys mapped to JSON strings).  `loads`/`dumps` abstract
`json.loads`/`json.dumps`.  The source decodes
`integration_context.get(key, '[]')` before branching on
`key in object_keys`; a merged key encodes the `merge_lists` result, any
other key encodes the given value directly. -/
def updateContextStep (loads : String → Option PyVal) (dumps : PyVal → String)
    (object_keys : List (String × String)) (ic : List (String × String))
    (kv : String × PyVal) : Option (List (String × String)) :=
  match loads (alGetD ic kv.1 "[]") with
  | Option.none => Option.none
  | some latest_object =>
      match alGet object_keys kv.1 with
      | some obj_key =>
          match asObjList latest_object, asObjList kv.2 with
          | some latest, some updated =>
              match merge_lists latest updated obj_key with
              | some merged_list =>
                  some (alSet ic kv.1 (dumps (PyVal.list (PyList.ofList
                    (merged_list.map fun d => PyVal.dict (PyDict.ofList d))))))
              | Option.none => Option.none
          | _, _ => Option.none
      | Option.none => some (alSet ic kv.1 (dumps kv.2))

/-- `update_integration_context(context, object_keys, sync)`: fold the loop
over the items of `context`, starting from the stored context obtained (with
its `version`) from `get_integration_context_with_version`, and return the
updated dict together with that version. -/
def update_integration_context (loads : String → Option PyVal)
    (dumps : PyVal → String) (context : List (String × PyVal))
    (object_keys : List (String × String))
    (integration_context : List (String × String)) (version : Int) :
    Option (List (String × String) × Int) :=
  match context.foldlM (updateContextStep loads dumps object_keys) integration_context with
  | some ic => some (ic, version)
  | Option.none => Option.none

/-- A degenerate stand-in for `json.loads` used in the witnesses below:
every string decodes to the empty list. -/
def loadsEmptyList : String → Option PyVal := fun _ => some (PyVal.list PyList.nil)

/-- A degenerate stand-in for `json.dumps` used in the witnesses below. -/
def dumpsConst : PyVal → String := fun _ => "0"

/-! ### tableToMarkdown
The defaulted parameters not exercised by the claims are fixed at their
source defaults: `headerTransform=None` (so `stringEscapeMD(s, True, True)`),
`url_keys=None`, `date_fields=None`, `json_transform_mapping=None` with
`is_auto_json_transform=False` (so every header maps to
`JsonTransformer(flatten=True)`).  A string `headers` argument is normalised
by the source to a one-element list; the model takes the list form. -/

/-- The Python builtins the cell renderer delegates to: `str(...)` and
`json.dumps(..., indent=indent, ensure_ascii=False)`. -/
structure PyStrFns where
  str : PyVal → String
  dumps : PyVal → Option Nat → String

/-- `MARKDOWN_CHARS = r"\`*_{}[]()#+-!|"` from the source. -/
def MARKDOWN_CHARS : String := "\\`*_\x7b\x7d[]()#+-!|"

/-- `stringEscapeMD(st, minimal_escaping, escape_multiline)`. -/
def stringEscapeMD (st : String) (minimal_escaping : Bool := false)
    (escape_multiline : Bool := false) : String :=
  let st :=
    if escape_multiline then
      ((st.replace "\r\n" "<br>").replace "\r" "<br>").replace "\n" "<br>"
    else st
  if minimal_escaping then
    (st.replace "|" "\\|").replace "`" "\\`"
  else
    String.mk (st.toList.foldr
      (fun c acc => if MARKDOWN_CHARS.toList.contains c then '\\' :: c :: acc else c :: acc) [])

/-- `flattenCell(data, is_pretty)`: a string verbatim, a list joined with
`',\n'` after `str(...)` on each element, anything else through
`json.dumps(data, indent=4 if is_pretty else None, ensure_ascii=False)`.
(The python2/bytes branches are not modelled.) -/
def flattenCell (S : PyStrFns) (data : PyVal) (is_pretty : Bool := true) : String :=
  match data with
  | .str s => s
  | .list xs => ",\n".intercalate (xs.toList.map S.str)
  | _ => S.dumps data (if is_pretty then some 4 else Option.none)

/-- `JsonTransformer(flatten=True).json_to_str(json_input, is_pretty)` (the
transformer `tableToMarkdown` builds by default): a string verbatim, a
non-dict through `flattenCell`, a dict joined as `'key: value'` lines. -/
def jsonToStrFlatten (S : PyStrFns) (json_input : PyVal) (is_pretty : Bool) : String :=
  match json_input with
  | .str s => s
  | .dict d =>
      "\n".intercalate (d.toList.map fun kv => kv.1 ++ ": " ++ flattenCell S kv.2 is_pretty)
  | v => flattenCell S v is_pretty

/-- `formatCell(data, is_pretty, json_transform)` with the default flatten
transformer. -/
def formatCell (S : PyStrFns) (data : PyVal) (is_pretty : Bool := true) : String :=
  jsonToStrFlatten S data is_pretty

/-- Python truthiness of a `PyVal`. -/
def pyTruthy : PyVal → Bool
  | .str s => s ≠ ""
  | .int n => n != 0
  | .bool b => b
  | .none => false
  | .list xs => xs != PyList.nil
  | .dict xs => xs != PyDict.nil

/-- Python `len(...)`; `Option.none` is the `TypeError` of unsized values. -/
def pyLen : PyVal → Option Nat
  | .str s => some s.length
  | .list xs => some xs.toList.length
  | .dict xs => some xs.toList.length
  | _ => Option.none

/-- Python falsiness of the `headers` argument (`None` or the empty list). -/
def headersFalsy (headers : Option (List String)) : Bool :=
  headers == Option.none || headers == some []

/-- `obj.get(h)` inside `tableToMarkdown`; a non-dict raises
`AttributeError`. -/
def objGet (obj : PyVal) (h : String) : Except String (Option PyVal) :=
  match obj with
  | .dict d => Except.ok (alGet d.toList h)
  | _ => Except.error "AttributeError"

/-- Is a cell value one of `('', None, [], {})`?  (`removeNull` drops a
column when every cell is; a missing key reads as `None`.) -/
def isNullCellVal (v : Option PyVal) : Bool :=
  match v with
  | Option.none => true
  | some v => v == .str "" || v == .none || v == .list PyList.nil || v == .dict PyDict.nil

/-- `all(obj.get(header) in ('', None, [], {}) for obj in t)`, with the
short-circuit of the generator preserved. -/
def colIsNull (tList : List PyVal) (h : String) : Except String Bool :=
  match tList with
  | [] => Except.ok true
  | obj :: rest => do
      let g ← objGet obj h
      if isNullCellVal g then colIsNull rest h else pure false

/-- The `removeNull` pass: drop the headers whose column is all-null. -/
def applyRemoveNull (tList : List PyVal) : List String → Except String (List String)
  | [] => Except.ok []
  | h :: hs => do
      let isNull ← colIsNull tList h
      let rest ← applyRemoveNull tList hs
      pure (if isNull then rest else h :: rest)

/-- The header-resolution steps of `tableToMarkdown` on the listified table:
when the first entry is not a dict, a truthy `headers` wraps every item as
`{header: item}` and a falsy one raises (message truncated before the quoted
example); when the first entry is a dict and `headers` is falsy, the headers
become the keys of the first entry, sorted ascending
(`headers = list(t[0].keys()); headers.sort()`). -/
def resolveHeaders (tList : List PyVal) (headers : Option (List String)) :
    Except String (List PyVal × List String) :=
  match tList with
  | [] => Except.error "IndexError"
  | PyVal.dict d0 :: rest =>
      if headersFalsy headers then
        Except.ok (PyVal.dict d0 :: rest, List.mergeSort (alKeys d0.toList) pyStrLe)
      else
        Except.ok (PyVal.dict d0 :: rest, headers.getD [])
  | t0 :: rest =>
      match headers with
      | some (h0 :: hs) =>
          Except.ok ((t0 :: rest).map fun item => PyVal.dict (PyDict.cons h0 item PyDict.nil),
                     h0 :: hs)
      | _ => Except.error "Missing headers param for tableToMarkdown"

/-- One rendered cell: `''` when the value is absent or `None`, otherwise
`formatCell(value, False, flatten-transformer)`, then
`stringEscapeMD(..., True, True)`. -/
def renderCell (S : PyStrFns) (entry : List (String × PyVal)) (h : String) : String :=
  match alGet entry h with
  | Option.none => stringEscapeMD "" true true
  | some PyVal.none => stringEscapeMD "" true true
  | some v => stringEscapeMD (formatCell S v false) true true

/-- One rendered row; a non-dict entry raises `AttributeError` when its cells
are read. -/
def renderRow (S : PyStrFns) (hs : List String) (entry : PyVal) : Except String String :=
  match entry with
  | .dict d => Except.ok ("| " ++ " | ".intercalate (hs.map (renderCell S d.toList)) ++ " |\n")
  | _ => Except.error "AttributeError"

/-- The final rendering block of `tableToMarkdown`: with a truthy table and
at least one header, the escaped header row, the separator row and the data
rows; otherwise `'**No entries.**\n'`. -/
def renderTable (S : PyStrFns) (tList : List PyVal) (hs : List String) :
    Except String String :=
  if tList.isEmpty || hs.isEmpty then Except.ok "**No entries.**\n"
  else do
    let newHeaders := hs.map fun h => stringEscapeMD h true true
    let headerRow :=
      "|" ++ (if newHeaders.length = 1 then newHeaders.headD "" else "|".intercalate newHeaders)
          ++ "|\n"
    let sepRow := "|" ++ "|".intercalate (List.replicate hs.length "---") ++ "|\n"
    let rows ← (tList.mapM (renderRow S hs) : Except String (List String))
    pure (headerRow ++ sepRow ++ String.join rows)

/-- `tableToMarkdown(name, t, headers, headerTransform=None,
removeNull, metadata, ...)` with the remaining parameters at their source
defaults (see the section comment).  The title line appears for a truthy
`name`, the metadata line for a truthy `metadata`; a falsy or empty `t`
returns with `'**No entries.**\n'` at once; a single-key dict without headers
becomes a one-column table of its value; a non-list `t` is wrapped in a
list. -/
def tableToMarkdown (S : PyStrFns) (name : String) (t : PyVal)
    (headers : Option (List String) := Option.none) (removeNull : Bool := false)
    (metadata : Option String := Option.none) : Except String String :=
  let mdResult := if name ≠ "" then "### " ++ name ++ "\n" else ""
  let mdResult := mdResult ++
    (match metadata with
     | some m => if m ≠ "" then m ++ "\n" else ""
     | Option.none => "")
  if ¬ pyTruthy t then Except.ok (mdResult ++ "**No entries.**\n")
  else do
    let n ←
      match pyLen t with
      | some n => pure n
      | Option.none => throw "TypeError"
    if n = 0 then pure (mdResult ++ "**No entries.**\n")
    else
      let step1 : PyVal × Option (List String) :=
        match t, headers with
        | .dict (.cons k v PyDict.nil), h =>
            if headersFalsy h then (v, some [k]) else (.dict (.cons k v PyDict.nil), h)
        | tv, h => (tv, h)
      let tList := match step1.1 with | .list xs => xs.toList | tv => [tv]
      let rh ← resolveHeaders tList step1.2
      let hs ← if removeNull then applyRemoveNull rh.1 rh.2 else pure rh.2
      let body ← renderTable S rh.1 hs
      pure (mdResult ++ body)

/-! ### Concrete searcher states and hosts used in the statements below -/

/-- A host whose search answer carries no iocs, no cursor and no total. -/
def emptySearchHost : SearchArgs → SearchRes :=
  fun _ => { iocs := Option.none, searchAfter := Option.none, total := Option.none }

/-- A paging-mode searcher (`_page` an int, pre-6.1.0 server) whose `limit`
is already reached while no search has ever populated `total`. -/
def pagingCounterexampleSearcher : IndicatorsSearcher :=
  { canUseSearchAfter := false
    canUseFilterFields := false
    searchAfterParam := Option.none
    page := 0
    filterFields := Option.none
    total := Option.none
    fromDate := Option.none
    query := Option.none
    size := 100
    toDate := Option.none
    value := Option.none
    limit := some 0
    totalIocsFetched := 0 }

/-- A paging-mode searcher with no limit whose previous search populated
`total = 50` with `page = 1` and `size = 100`. -/
def pagingWitnessSearcher : IndicatorsSearcher :=
  { canUseSearchAfter := false
    canUseFilterFields := false
    searchAfterParam := Option.none
    page := 1
    filterFields := Option.none
    total := some 50
    fromDate := Option.none
    query := Option.none
    size := 100
    toDate := Option.none
    value := Option.none
    limit := Option.none
    totalIocsFetched := 0 }

/-- A searcher whose `limit` of 2 is already reached by 3 fetched iocs. -/
def limitReachedSearcher : IndicatorsSearcher :=
  { canUseSearchAfter := false
    canUseFilterFields := false
    searchAfterParam := Option.none
    page := 0
    filterFields := Option.none
    total := Option.none
    fromDate := Option.none
    query := Option.none
    size := 100
    toDate := Option.none
    value := Option.none
    limit := some 2
    totalIocsFetched := 3 }

/-- A fresh searcher: no limit, no total yet. -/
def freshSearcher : IndicatorsSearcher :=
  { canUseSearchAfter := false
    canUseFilterFields := false
    searchAfterParam := Option.none
    page := 0
    filterFields := Option.none
    total := Option.none
    fromDate := Option.none
    query := Option.none
    size := 100
    toDate := Option.none
    value := Option.none
    limit := Option.none
    totalIocsFetched := 0 }

/-- A concrete `PyStrFns` for witnesses: constant `str` and `dumps`. -/
def pyStrFnsConst : PyStrFns :=
  { str := fun _ => "s", dumps := fun _ _ => "j" }

/-! ## Theorems -/

theorem set_to_integration_context_from_all_fail (succeeds : Nat → Bool) (n : Nat) :
    ∀ k a, n - a = k → (∀ i, a ≤ i → i < n → succeeds i = false) →
    set_to_integration_context_from succeeds n a = (Except.error maxRetryMsg, n - a) := by
  intro k
  induction k with
  | zero =>
      intro a hk _
      have hna : n ≤ a := by omega
      rw [set_to_integration_context_from]
      simp [hna, hk]
  | succ k ih =>
      intro a hk h
      have hna : ¬ n ≤ a := by omega
      rw [set_to_integration_context_from]
      simp only [hna, dite_false]
      rw [h a (Nat.le_refl a) (by omega)]
      simp only [Bool.false_eq_true, if_false]
      rw [ih (a + 1) (by omega) (fun i hi hin => h i (by omega) hin)]
      simp only [Prod.mk.injEq]
      exact ⟨trivial, by omega⟩

theorem set_to_integration_context_from_success (succeeds : Nat → Bool) (n : Nat) :
    ∀ d a k, k - a = d → a ≤ k → k < n → succeeds k = true →
    (∀ i, a ≤ i → i < k → succeeds i = false) →
    set_to_integration_context_from succeeds n a = (Except.ok (), k + 1 - a) := by
  intro d
  induction d with
  | zero =>
      intro a k hd hak _hkn hk _h
      have hka : a = k := by omega
      subst hka
      have hna : ¬ n ≤ a := by omega
      rw [set_to_integration_context_from]
      simp [hna, hk]
  | succ d ih =>
      intro a k hd hak hkn hk h
      have hna : ¬ n ≤ a := by omega
      rw [set_to_integration_context_from]
      simp only [hna, dite_false]
      rw [h a (Nat.le_refl a) (by omega)]
      simp only [Bool.false_eq_true, if_false]
      rw [ih (a + 1) k (by omega) (by omega) hkn hk (fun i hi hik => h i (by omega) hik)]
      simp only [Prod.mk.injEq]
      exact ⟨trivial, by omega⟩

/-- C2: with `max_retry_times = n`, if the first `n` calls to
`set_integration_context` all raise `ValueError` then
`set_to_integration_context_with_retries` raises the exception
`'Failed updating integration context. Max retry attempts exceeded.'` after
exactly `n` set attempts; if the set attempt of index `k < n` succeeds and
all earlier ones raise `ValueError`, the function returns `None` right after
that attempt, having made exactly `k + 1` set calls; and the default number
of attempts, `CONTEXT_UPDATE_RETRY_TIMES`, is 3. -/
theorem set_to_integration_context_with_retries_spec (succeeds : Nat → Bool) (n : Nat) :
    ((∀ i, i < n → succeeds i = false) →
      set_to_integration_context_with_retries succeeds n = (Except.error maxRetryMsg, n))
    ∧ (∀ k, k < n → succeeds k = true → (∀ i, i < k → succeeds i = false) →
      set_to_integration_context_with_retries succeeds n = (Except.ok (), k + 1))
    ∧ CONTEXT_UPDATE_RETRY_TIMES = 3 := by
  refine ⟨fun h => ?_, fun k hkn hk h => ?_, rfl⟩
  · have := set_to_integration_context_from_all_fail succeeds n n 0 (by omega)
      (fun i _ hi => h i hi)
    simpa [set_to_integration_context_with_retries] using this
  · have := set_to_integration_context_from_success succeeds n k 0 k rfl (Nat.zero_le k) hkn hk
      (fun i _ hik => h i hik)
    simpa [set_to_integration_context_with_retries] using this

/-- Witness for C2 at concrete inputs: with three attempts that all fail the
call raises after 3 set calls, and with a first-attempt success it returns
after a single set call. -/
theorem set_to_integration_context_with_retries_spec_witness :
    set_to_integration_context_with_retries (fun _ => false) 3
        = (Except.error maxRetryMsg, 3)
    ∧ set_to_integration_context_with_retries (fun _ => true) 3 = (Except.ok (), 1) :=
  ⟨(set_to_integration_context_with_retries_spec (fun _ => false) 3).1 (fun i _ => rfl),
   (set_to_integration_context_with_retries_spec (fun _ => true) 3).2.1 0 (by decide) rfl
     (fun i hi => absurd hi (Nat.not_lt_zero i))⟩

theorem is_demisto_version_ge_600_ok (d : Demisto) :
    ∃ b, is_demisto_version_ge d "6.0.0" = Except.ok b := by
  unfold is_demisto_version_ge
  match d.demistoVersion with
  | some sv =>
      by_cases h1 : pyStrLt "6.0.0" sv.version = true
      · exact ⟨true, by simp [h1]⟩
      · by_cases h2 : sv.version = "6.0.0"
        · exact ⟨true, by simp [h1, h2]⟩
        · exact ⟨false, by simp [h1, h2]⟩
  | Option.none =>
      exact ⟨false, by norm_num [show pyStrLe "5.0.0" "6.0.0" = true from rfl]⟩

/-- C6: `set_integration_context` issues
`demisto.setIntegrationContextVersioned(context, version, sync)` exactly when
the server version is at least 6.0.0 (the test
`is_demisto_version_ge('6.0.0')`), and `demisto.setIntegrationContext(context)`
exactly otherwise; symmetrically, `get_integration_context` reads through
`demisto.getIntegrationContextVersioned(sync)` exactly when the server version
is at least 6.0.0 and through `demisto.getIntegrationContext()` otherwise. -/
theorem integration_context_dispatch_spec (d : Demisto) (context : PyObj)
    (sync : Bool) (version : Int) (with_version : Bool) :
    (set_integration_context d context sync version
        = Except.ok (SetCtxCall.versioned context version sync)
      ↔ is_demisto_version_ge d "6.0.0" = Except.ok true)
    ∧ (set_integration_context d context sync version
        = Except.ok (SetCtxCall.plain context)
      ↔ is_demisto_version_ge d "6.0.0" = Except.ok false)
    ∧ ((∃ r, get_integration_context d sync with_version
        = Except.ok (GetCtxCall.versioned sync, r))
      ↔ is_demisto_version_ge d "6.0.0" = Except.ok true)
    ∧ ((∃ r, get_integration_context d sync with_version
        = Except.ok (GetCtxCall.plain, r))
      ↔ is_demisto_version_ge d "6.0.0" = Except.ok false) := by
  obtain ⟨b, hb⟩ := is_demisto_version_ge_600_ok d
  have havail : is_versioned_context_available d = Except.ok b := hb
  cases b <;>
    cases with_version <;>
      simp [set_integration_context, get_integration_context, havail, hb,
        Bind.bind, Except.bind, pure, Except.pure]

theorem filter_types_mem (extracted : List (String × PyVal)) (t : String)
    (k : String) (v : PyVal) :
    (k, v) ∈ filter_types extracted t
      ↔ (k, v) ∈ extracted ∧ strIn (pyLower k) t = true := by
  simp [filter_types, List.mem_filter]

/-- C7: `filter_types` keeps exactly the entries whose lower-cased type key
occurs as a contiguous substring of the raw `indicators_types` string; the
lower-cased `argToList` list of the first source line is discarded, so the
filter is not a case-insensitive membership test of the comma-separated type
list: with types `ipv6,url` the entry `ip` is kept because `ip` is a
substring of the listed `ipv6` (membership would drop it), and with the
upper-case string `IP` nothing is kept (membership would keep `ip`). -/
theorem filter_types_spec :
    (∀ (extracted : List (String × PyVal)) (t : String) (k : String) (v : PyVal),
      (k, v) ∈ filter_types extracted t
        ↔ (k, v) ∈ extracted ∧ strIn (pyLower k) t = true)
    ∧ filter_types [("ip", PyVal.none)] "ipv6,url" = [("ip", PyVal.none)]
    ∧ filter_types_listMembership [("ip", PyVal.none)] "ipv6,url" = []
    ∧ filter_types [("ip", PyVal.none)] "IP" = []
    ∧ filter_types_listMembership [("ip", PyVal.none)] "IP" = [("ip", PyVal.none)] :=
  ⟨filter_types_mem, by decide, by decide, by decide, by decide⟩

/-- C10: `auto_detect_indicator_type` returns the type of the first matching
regex in the fixed order CIDR, IPv6CIDR, IP, IPv6, SHA-256 file, URL, MD5
file, SHA-1 file, Email, CVE, SHA-512 file (so for an input matching two
regexes the earlier one in this order decides), and when no regex matches
and the domain-suffix extraction raises or finds no suffix it returns
`None`. -/
theorem auto_detect_indicator_type_spec (reMatch : RegexId → String → Bool)
    (extract : String → Option String) (v : String) :
    (auto_detect_indicator_type reMatch extract v =
      match detectionOrder.find? (fun p => reMatch p.1 v) with
      | some p => some p.2
      | Option.none =>
          match extract v with
          | some suffix =>
              if suffix ≠ "" then
                if v.contains '*' then some FeedIndicatorType.DomainGlob
                else some FeedIndicatorType.Domain
              else Option.none
          | Option.none => Option.none)
    ∧ ((∀ r, reMatch r v = false) →
        (extract v = Option.none ∨ extract v = some "") →
        auto_detect_indicator_type reMatch extract v = Option.none) := by
  constructor
  · simp only [auto_detect_indicator_type, detectionOrder]
    cases h1 : reMatch RegexId.ipv4cidrRegex v with
    | true => simp [List.find?, h1]
    | false =>
    cases h2 : reMatch RegexId.ipv6cidrRegex v with
    | true => simp [List.find?, h1, h2]
    | false =>
    cases h3 : reMatch RegexId.ipv4Regex v with
    | true => simp [List.find?, h1, h2, h3]
    | false =>
    cases h4 : reMatch RegexId.ipv6Regex v with
    | true => simp [List.find?, h1, h2, h3, h4]
    | false =>
    cases h5 : reMatch RegexId.sha256Regex v with
    | true => simp [List.find?, h1, h2, h3, h4, h5]
    | false =>
    cases h6 : reMatch RegexId.urlRegex v with
    | true => simp [List.find?, h1, h2, h3, h4, h5, h6]
    | false =>
    cases h7 : reMatch RegexId.md5Regex v with
    | true => simp [List.find?, h1, h2, h3, h4, h5, h6, h7]
    | false =>
    cases h8 : reMatch RegexId.sha1Regex v with
    | true => simp [List.find?, h1, h2, h3, h4, h5, h6, h7, h8]
    | false =>
    cases h9 : reMatch RegexId.emailRegex v with
    | true => simp [List.find?, h1, h2, h3, h4, h5, h6, h7, h8, h9]
    | false =>
    cases h10 : reMatch RegexId.cveRegex v with
    | true => simp [List.find?, h1, h2, h3, h4, h5, h6, h7, h8, h9, h10]
    | false =>
    cases h11 : reMatch RegexId.sha512Regex v with
    | true => simp [List.find?, h1, h2, h3, h4, h5, h6, h7, h8, h9, h10, h11]
    | false => simp [List.find?, h1, h2, h3, h4, h5, h6, h7, h8, h9, h10, h11]
  · intro hm he
    simp only [auto_detect_indicator_type, hm, Bool.false_eq_true, if_false]
    rcases he with he | he <;> simp [he]

/-- Witness for C10 at a concrete input: when no regex matches and the
suffix extraction finds nothing, the detector returns `None`. -/
theorem auto_detect_indicator_type_spec_witness :
    auto_detect_indicator_type (fun _ _ => false) (fun _ => some "") "x"
      = Option.none :=
  (auto_detect_indicator_type_spec (fun _ _ => false) (fun _ => some "") "x").2
    (fun _ => rfl) (Or.inr rfl)

theorem isSearchDoneNoLimit_snd (s : IndicatorsSearcher) :
    (isSearchDoneNoLimit s).2 = s := by
  unfold isSearchDoneNoLimit
  cases s.total <;> rfl

theorem is_search_done_false_state (s : IndicatorsSearcher)
    (h : (is_search_done s).1 = false) : (is_search_done s).2 = s := by
  unfold is_search_done at *
  cases hl : s.limit with
  | none => simp only [hl] at *; exact isSearchDoneNoLimit_snd s
  | some l =>
      simp only [hl] at *
      by_cases hr : (l ≤ (s.totalIocsFetched : Int))
      · simp [hr] at h
      · simp only [hr, decide_eq_false, if_false] at *
        exact isSearchDoneNoLimit_snd s

/-- C4 counterexample: a paging-mode searcher whose limit is reached while
`total` was never populated.  `is_search_done` answers `True` although no
previous search populated `total`, refuting the claimed
"exactly when a previous search populated total and total <= page * size". -/
theorem is_search_done_paging_counterexample :
    pagingCounterexampleSearcher.canUseSearchAfter = false
    ∧ (is_search_done pagingCounterexampleSearcher).1 = true
    ∧ ¬ ∃ t, pagingCounterexampleSearcher.total = some t
          ∧ t ≤ pagingCounterexampleSearcher.page * pagingCounterexampleSearcher.size := by
  refine ⟨rfl, rfl, ?_⟩
  rintro ⟨t, ht, _⟩
  exact Option.noConfusion ht

/-- C4 (amended): each `search_indicators_by_version` call on a searcher
whose `_page` is an int increases `_page` by exactly 1; the arguments handed
to `demisto.searchIndicators` carry the pre-increment page exactly when
`searchAfter` is unavailable (pre-6.1.0 server); and, *provided the limit
condition has not been reached* (`limit` is `None` or still above
`_total_iocs_fetched` — the part the original claim omits), in the paging
mode `is_search_done` returns `True` exactly when a previous search
populated `total` and `total <= page * size`. -/
theorem search_indicators_paging_spec (host : SearchArgs → SearchRes)
    (s : IndicatorsSearcher) (fd td q val : Option PyVal) (size : Int) :
    ((search_indicators_by_version host s fd td q val size).2.page = s.page + 1)
    ∧ ((mkSearchArgs s fd td q val size).page
        = if s.canUseSearchAfter then Option.none else some s.page)
    ∧ (s.canUseSearchAfter = false →
        (∀ l, s.limit = some l → (s.totalIocsFetched : Int) < l) →
        ((is_search_done s).1 = true ↔ ∃ t, s.total = some t ∧ t ≤ s.page * s.size)) := by
  refine ⟨rfl, ?_, ?_⟩
  · cases hsa : s.canUseSearchAfter <;> simp [mkSearchArgs, hsa]
  · intro hsa hlim
    have hnl : ((isSearchDoneNoLimit s).1 = true ↔ ∃ t, s.total = some t ∧ t ≤ s.page * s.size) := by
      unfold isSearchDoneNoLimit
      cases ht : s.total with
      | none => simp
      | some t => simp [hsa]
    unfold is_search_done
    cases hl : s.limit with
    | none => simpa using hnl
    | some l =>
        have hr : ¬ (l ≤ (s.totalIocsFetched : Int)) := by
          have := hlim l hl
          omega
        simpa [hr] using hnl

/-- Witness for C4 (amended) at a concrete paging searcher with `page = 1`,
`size = 100`, no limit, and a previous search that populated `total = 50`:
`is_search_done` answers `True`, and the argument builder carries the
pre-increment page. -/
theorem search_indicators_paging_spec_witness :
    ((mkSearchArgs pagingWitnessSearcher Option.none Option.none Option.none Option.none 100).page
      = some 1)
    ∧ (is_search_done pagingWitnessSearcher).1 = true := by
  have h := search_indicators_paging_spec emptySearchHost pagingWitnessSearcher
    Option.none Option.none Option.none Option.none 100
  refine ⟨h.2.1.trans (by decide), ?_⟩
  exact (h.2.2 rfl (fun l hl => Option.noConfusion hl)).2 ⟨50, rfl, by decide⟩

theorem searcherNext_limit_reached (host : SearchArgs → SearchRes)
    (s : IndicatorsSearcher) (l : Int) (hl : s.limit = some l)
    (hr : l ≤ (s.totalIocsFetched : Int)) :
    (searcherNext host s).1 = Option.none
    ∧ (∀ host', searcherNext host' s = searcherNext host s)
    ∧ (∃ l', (searcherNext host s).2.limit = some l'
        ∧ l' ≤ ((searcherNext host s).2.totalIocsFetched : Int))
    ∧ (searcherNext host s).2.totalIocsFetched = s.totalIocsFetched := by
  have hdone1 : (is_search_done s).1 = true := by
    unfold is_search_done
    rw [hl]
    simp [hr]
  have hnext : ∀ h' : SearchArgs → SearchRes, searcherNext h' s = (Option.none, (is_search_done s).2) := by
    intro h'
    simp only [searcherNext, hdone1, if_true]
  have hstate : (is_search_done s).2.limit = (if (s.totalIocsFetched : Int) > l then some (s.totalIocsFetched : Int) else some l)
      ∧ (is_search_done s).2.totalIocsFetched = s.totalIocsFetched := by
    unfold is_search_done
    rw [hl]
    simp only [decide_eq_true hr, if_true]
    by_cases hgt : ((s.totalIocsFetched : Int) > l)
    · simp [hgt]
    · simp [hgt, hl]
  refine ⟨by rw [hnext host], fun h' => by rw [hnext h', hnext host], ?_, by rw [hnext host]; exact hstate.2⟩
  rw [hnext host]
  by_cases hgt : ((s.totalIocsFetched : Int) > l)
  · refine ⟨(s.totalIocsFetched : Int), ?_, ?_⟩
    · simpa [hgt] using hstate.1
    · simp [hstate.2]
  · refine ⟨l, ?_, ?_⟩
    · simpa [hgt] using hstate.1
    · simpa [hstate.2] using hr

theorem searcherIter_limit_invariant (host : SearchArgs → SearchRes)
    (s : IndicatorsSearcher) (hs : ∃ l, s.limit = some l ∧ l ≤ (s.totalIocsFetched : Int)) :
    ∀ k, ∃ l, (searcherIter host s k).limit = some l
      ∧ l ≤ ((searcherIter host s k).totalIocsFetched : Int) := by
  intro k
  induction k generalizing s with
  | zero => exact hs
  | succ k ih =>
      obtain ⟨l, hl, hr⟩ := hs
      have h := searcherNext_limit_reached host s l hl hr
      exact ih (searcherNext host s).2 h.2.2.1

/-- C5: once the cumulative fetched count has reached a non-`None` `limit`,
every subsequent `__next__` call raises `StopIteration` and issues no search
call (the outcome does not depend on the host at all); and whenever a search
is performed but answers zero iocs, `__next__` raises `StopIteration`
without updating `_total_iocs_fetched`. -/
theorem searcherNext_spec (host host' : SearchArgs → SearchRes) (s : IndicatorsSearcher) :
    ((∃ l, s.limit = some l ∧ l ≤ (s.totalIocsFetched : Int)) →
      ∀ k, (searcherNext host (searcherIter host s k)).1 = Option.none
        ∧ searcherNext host' (searcherIter host s k) = searcherNext host (searcherIter host s k))
    ∧ ((is_search_done s).1 = false →
        (host (mkSearchArgs s s.fromDate s.toDate s.query s.value s.size)).iocs.getD [] = [] →
        (searcherNext host s).1 = Option.none
        ∧ (searcherNext host s).2.totalIocsFetched = s.totalIocsFetched) := by
  constructor
  · intro hs k
    obtain ⟨l, hl, hr⟩ := searcherIter_limit_invariant host s hs k
    have h := searcherNext_limit_reached host (searcherIter host s k) l hl hr
    exact ⟨h.1, h.2.1 host'⟩
  · intro hdone hempty
    have hstate : (is_search_done s).2 = s := is_search_done_false_state s hdone
    simp only [searcherNext, hdone, Bool.false_eq_true, if_false, hstate,
      search_indicators_by_version, hempty, List.length_nil, if_true]
    exact ⟨trivial, trivial⟩

/-- Witness for C5 at concrete states: a searcher with `limit = 2` and
3 iocs already fetched answers `StopIteration` independently of the host on
the first and second further calls, and a fresh searcher receiving a
zero-ioc answer stops without updating its fetched count. -/
theorem searcherNext_spec_witness :
    ((searcherNext emptySearchHost (searcherIter emptySearchHost limitReachedSearcher 0)).1
        = Option.none
      ∧ searcherNext (fun _ => { iocs := some [PyVal.none], searchAfter := Option.none, total := some 7 })
          (searcherIter emptySearchHost limitReachedSearcher 0)
        = searcherNext emptySearchHost (searcherIter emptySearchHost limitReachedSearcher 0))
    ∧ ((searcherNext emptySearchHost freshSearcher).1 = Option.none
      ∧ (searcherNext emptySearchHost freshSearcher).2.totalIocsFetched
          = freshSearcher.totalIocsFetched) :=
  ⟨(searcherNext_spec emptySearchHost
      (fun _ => { iocs := some [PyVal.none], searchAfter := Option.none, total := some 7 })
      limitReachedSearcher).1 ⟨2, rfl, by decide⟩ 0,
   (searcherNext_spec emptySearchHost emptySearchHost freshSearcher).2 rfl rfl⟩

theorem mem_alKeys_of_mem {κ β : Type} (k : κ) (v : β) (l : List (κ × β))
    (h : (k, v) ∈ l) : k ∈ alKeys l :=
  List.mem_map.mpr ⟨(k, v), h, rfl⟩

theorem alSet_not_mem {κ β : Type} [DecidableEq κ] (d : List (κ × β)) (k : κ) (v : β)
    (h : k ∉ alKeys d) : alSet d k v = d ++ [(k, v)] := by
  induction d with
  | nil => rfl
  | cons hd rest ih =>
      obtain ⟨k', v'⟩ := hd
      have hne : k' ≠ k := fun he => h (by simp [alKeys, he])
      have hrest : k ∉ alKeys rest := fun hm => h (by simp [alKeys] at hm ⊢; tauto)
      simp [alSet, hne, ih hrest]

theorem alKeys_alSet_mem {κ β : Type} [DecidableEq κ] (d : List (κ × β)) (k : κ) (v : β)
    (h : k ∈ alKeys d) : alKeys (alSet d k v) = alKeys d := by
  induction d with
  | nil => simp [alKeys] at h
  | cons hd rest ih =>
      obtain ⟨k', v'⟩ := hd
      by_cases he : k' = k
      · simp [alSet, he, alKeys]
      · have hrest : k ∈ alKeys rest := by
          simp [alKeys] at h ⊢
          rcases h with h | h
          · exact absurd h.symm he
          · exact h
        have hih := ih hrest
        simp only [alKeys] at hih
        simp [alSet, he, alKeys, hih]

theorem alSet_mem_iff {κ β : Type} [DecidableEq κ] (d : List (κ × β))
    (hnd : (alKeys d).Nodup) (k : κ) (v : β) (k' : κ) (v' : β) :
    (k', v') ∈ alSet d k v ↔ ((k' = k ∧ v' = v) ∨ ((k', v') ∈ d ∧ k' ≠ k)) := by
  induction d with
  | nil => simp [alSet]
  | cons hd rest ih =>
      obtain ⟨k₀, v₀⟩ := hd
      have hnd' : (alKeys rest).Nodup := (List.nodup_cons.mp hnd).2
      have hk₀ : k₀ ∉ alKeys rest := (List.nodup_cons.mp hnd).1
      by_cases he : k₀ = k
      · subst he
        simp only [alSet, if_pos rfl]
        constructor
        · rintro h
          rcases List.mem_cons.mp h with h | h
          · exact Or.inl ⟨congrArg Prod.fst h, congrArg Prod.snd h⟩
          · exact Or.inr ⟨List.mem_cons_of_mem _ h, fun he' => hk₀ (he' ▸ mem_alKeys_of_mem k' v' rest h)⟩
        · rintro (⟨h1, h2⟩ | ⟨h1, h2⟩)
          · subst h1; subst h2; exact List.mem_cons_self _ _
          · rcases List.mem_cons.mp h1 with h | h
            · exact absurd (congrArg Prod.fst h) h2
            · exact List.mem_cons_of_mem _ h
      · simp only [alSet, if_neg he]
        constructor
        · intro h
          rcases List.mem_cons.mp h with h | h
          · refine Or.inr ⟨List.mem_cons.mpr (Or.inl h), ?_⟩
            intro hk
            exact he (((congrArg Prod.fst h : k' = k₀)).symm.trans hk)
          · rcases (ih hnd').mp h with h | h
            · exact Or.inl h
            · exact Or.inr ⟨List.mem_cons_of_mem _ h.1, h.2⟩
        · rintro (⟨h1, h2⟩ | ⟨h1, h2⟩)
          · exact List.mem_cons_of_mem _ ((ih hnd').mpr (Or.inl ⟨h1, h2⟩))
          · rcases List.mem_cons.mp h1 with h | h
            · exact List.mem_cons.mpr (Or.inl h)
            · exact List.mem_cons_of_mem _ ((ih hnd').mpr (Or.inr ⟨h, h2⟩))

theorem alKeys_alSet_nodup {κ β : Type} [DecidableEq κ] (d : List (κ × β))
    (hnd : (alKeys d).Nodup) (k : κ) (v : β) : (alKeys (alSet d k v)).Nodup := by
  by_cases h : k ∈ alKeys d
  · rw [alKeys_alSet_mem d k v h]; exact hnd
  · rw [alSet_not_mem d k v h]
    have : alKeys (d ++ [(k, v)]) = alKeys d ++ [k] := by simp [alKeys]
    rw [this]
    simp [List.nodup_append, hnd, h]

theorem alUpdate_mem_iff {κ β : Type} [DecidableEq κ] (u : List (κ × β)) :
    ∀ d : List (κ × β), (alKeys d).Nodup → (alKeys u).Nodup → ∀ (k : κ) (v : β),
    ((k, v) ∈ alUpdate d u ↔ ((k, v) ∈ u ∨ ((k, v) ∈ d ∧ k ∉ alKeys u))) := by
  induction u with
  | nil => intro d _ _ k v; simp [alUpdate, alKeys]
  | cons hd u' ih =>
      intro d hd' hu k v
      obtain ⟨k₀, v₀⟩ := hd
      have hk₀ : k₀ ∉ alKeys u' := (List.nodup_cons.mp hu).1
      have hu' : (alKeys u').Nodup := (List.nodup_cons.mp hu).2
      have hset : (alKeys (alSet d k₀ v₀)).Nodup := alKeys_alSet_nodup d hd' k₀ v₀
      have hstep : alUpdate d ((k₀, v₀) :: u') = alUpdate (alSet d k₀ v₀) u' := rfl
      rw [hstep, ih (alSet d k₀ v₀) hset hu' k v]
      rw [alSet_mem_iff d hd' k₀ v₀ k v]
      constructor
      · rintro (h | ⟨(⟨h1, h2⟩ | ⟨h1, h2⟩), h3⟩)
        · exact Or.inl (List.mem_cons_of_mem _ h)
        · subst h1; subst h2; exact Or.inl (List.mem_cons_self _ _)
        · refine Or.inr ⟨h1, ?_⟩
          intro hm
          simp only [alKeys, List.map_cons, List.mem_cons] at hm
          rcases hm with hm | hm
          · exact h2 hm
          · exact h3 hm
      · rintro (h | ⟨h1, h2⟩)
        · rcases List.mem_cons.mp h with h | h
          · have h1 : k = k₀ := congrArg Prod.fst h
            have h2 : v = v₀ := congrArg Prod.snd h
            exact Or.inr ⟨Or.inl ⟨h1, h2⟩, h1 ▸ hk₀⟩
          · exact Or.inl h
        · have hk : k ∉ alKeys ((k₀, v₀) :: u') := h2
          have hkne : k ≠ k₀ := by
            intro he
            exact hk (by simp [alKeys, he])
          have hku' : k ∉ alKeys u' := by
            intro hm
            exact hk (by simp [alKeys] at hm ⊢; tauto)
          exact Or.inr ⟨Or.inr ⟨h1, hkne⟩, hku'⟩

theorem keyedDict_aux (key : String) :
    ∀ (l : List PyObj) (acc : List (PyVal × PyObj)),
    (∀ e ∈ l, (alGet e key).isSome) →
    (alKeys acc ++ l.filterMap (fun e => alGet e key)).Nodup →
    ∃ d, List.foldlM (fun acc e => (alGet e key).map fun kv => alSet acc kv e) acc l = some d
      ∧ alKeys d = alKeys acc ++ l.filterMap (fun e => alGet e key)
      ∧ (∀ kv e, (kv, e) ∈ d ↔ ((kv, e) ∈ acc ∨ (e ∈ l ∧ alGet e key = some kv))) := by
  intro l
  induction l with
  | nil =>
      intro acc _ _
      exact ⟨acc, rfl, by simp, by simp⟩
  | cons e l' ih =>
      intro acc h hnd
      obtain ⟨kv₀, hkv₀⟩ := Option.isSome_iff_exists.mp (h e (List.mem_cons_self _ _))
      have hfm : (e :: l').filterMap (fun e => alGet e key)
          = kv₀ :: l'.filterMap (fun e => alGet e key) := by
        simp [List.filterMap_cons, hkv₀]
      rw [hfm] at hnd
      have hk₀acc : kv₀ ∉ alKeys acc := by
        intro hm
        have := (List.nodup_append.mp hnd).2.2
        exact this hm (List.mem_cons_self _ _)
      have hstep : alSet acc kv₀ e = acc ++ [(kv₀, e)] := alSet_not_mem acc kv₀ e hk₀acc
      have hnd' : (alKeys (acc ++ [(kv₀, e)]) ++ l'.filterMap (fun e => alGet e key)).Nodup := by
        have hkeys : alKeys (acc ++ [(kv₀, e)]) = alKeys acc ++ [kv₀] := by simp [alKeys]
        rw [hkeys, List.append_assoc]
        simpa using hnd
      obtain ⟨d, hd1, hd2, hd3⟩ := ih (acc ++ [(kv₀, e)])
        (fun x hx => h x (List.mem_cons_of_mem _ hx)) hnd'
      refine ⟨d, ?_, ?_, ?_⟩
      · simp only [List.foldlM_cons, hkv₀, Option.map_some', Option.some_bind, hstep]
        exact hd1
      · rw [hd2, hfm]
        simp [alKeys, List.append_assoc]
      · intro kv e'
        rw [hd3 kv e']
        constructor
        · rintro (hm | ⟨hm1, hm2⟩)
          · rcases List.mem_append.mp hm with hm | hm
            · exact Or.inl hm
            · have : (kv, e') = (kv₀, e) := by simpa using hm
              have hk : kv = kv₀ := congrArg Prod.fst this
              have he : e' = e := congrArg Prod.snd this
              exact Or.inr ⟨he ▸ List.mem_cons_self _ _, by rw [he, hk]; exact hkv₀⟩
          · exact Or.inr ⟨List.mem_cons_of_mem _ hm1, hm2⟩
        · rintro (hm | ⟨hm1, hm2⟩)
          · exact Or.inl (List.mem_append.mpr (Or.inl hm))
          · rcases List.mem_cons.mp hm1 with hh | hh
            · subst hh
              have : kv = kv₀ := by
                have := hkv₀.symm.trans hm2
                exact (Option.some.injEq _ _ ▸ this).symm
              subst this
              exact Or.inl (List.mem_append.mpr (Or.inr (by simp)))
            · exact Or.inr ⟨hh, hm2⟩

theorem keyedDict_spec (l : List PyObj) (key : String)
    (h : ∀ e ∈ l, (alGet e key).isSome)
    (hnd : (l.filterMap (fun e => alGet e key)).Nodup) :
    ∃ d, keyedDict l key = some d
      ∧ alKeys d = l.filterMap (fun e => alGet e key)
      ∧ (alKeys d).Nodup
      ∧ (∀ kv e, (kv, e) ∈ d ↔ (e ∈ l ∧ alGet e key = some kv)) := by
  obtain ⟨d, hd1, hd2, hd3⟩ := keyedDict_aux key l [] h (by simpa [alKeys] using hnd)
  refine ⟨d, hd1, by simpa [alKeys] using hd2, ?_, ?_⟩
  · rw [hd2]; simpa [alKeys] using hnd
  · intro kv e
    rw [hd3 kv e]
    simp

/-- C1 counterexample: with a duplicated key value inside `original_list`
(the claim only requires elements to be dictionaries containing the field),
the dict comprehension keeps the last element per key, so the first element
is dropped although its key value does not occur in `updated_list`, it has no
`remove` field, and the claim says it "is kept unchanged". -/
theorem merge_lists_duplicate_key_counterexample :
    merge_lists
        [[("id", PyVal.int 1), ("a", PyVal.int 1)],
         [("id", PyVal.int 1), ("a", PyVal.int 2)]] [] "id"
      = some [[("id", PyVal.int 1), ("a", PyVal.int 2)]]
    ∧ keepsElement [("id", PyVal.int 1), ("a", PyVal.int 1)] = true
    ∧ [("id", PyVal.int 1), ("a", PyVal.int 1)]
        ≠ [("id", PyVal.int 1), ("a", PyVal.int 2)] := by
  refine ⟨by decide, by decide, by decide⟩

/-- C1 (amended): provided additionally that the key values are pairwise
distinct within `original_list` and within `updated_list` (the dict
comprehensions silently collapse duplicates otherwise, as the counterexample
shows), `merge_lists` succeeds and its result holds exactly: the elements of
`updated_list` (which replace any original element with the same key value),
and the elements of `original_list` whose key value does not occur in
`updated_list` — in both cases only those whose `remove` field `is False`
(absent or the value `False`); every element with `remove` `True` (or any
other present value) is excluded. -/
theorem merge_lists_spec (original_list updated_list : List PyObj) (key : String)
    (ho : ∀ e ∈ original_list, (alGet e key).isSome)
    (hu : ∀ e ∈ updated_list, (alGet e key).isSome)
    (hno : (original_list.filterMap (fun e => alGet e key)).Nodup)
    (hnu : (updated_list.filterMap (fun e => alGet e key)).Nodup) :
    ∃ res, merge_lists original_list updated_list key = some res
      ∧ ∀ e, e ∈ res ↔
          (keepsElement e = true
            ∧ (e ∈ updated_list
              ∨ (e ∈ original_list
                  ∧ ∀ u ∈ updated_list, alGet u key ≠ alGet e key))) := by
  obtain ⟨od, hod1, hod2, hod3, hod4⟩ := keyedDict_spec original_list key ho hno
  obtain ⟨ud, hud1, hud2, hud3, hud4⟩ := keyedDict_spec updated_list key hu hnu
  refine ⟨((alUpdate od ud).map Prod.snd).filter keepsElement, ?_, ?_⟩
  · simp [merge_lists, hod1, hud1]
  · intro e
    constructor
    · intro h
      have h1 := (List.mem_filter.mp h).1
      have h2 := (List.mem_filter.mp h).2
      obtain ⟨⟨kv, e'⟩, hmem, hsnd⟩ := List.mem_map.mp h1
      have he' : e' = e := hsnd
      subst he'
      rcases (alUpdate_mem_iff ud od hod3 hud3 kv e').mp hmem with hm | ⟨hm, hnk⟩
      · exact ⟨h2, Or.inl ((hud4 kv e').mp hm).1⟩
      · have he := (hod4 kv e').mp hm
        refine ⟨h2, Or.inr ⟨he.1, ?_⟩⟩
        intro u hu' hq
        apply hnk
        rw [hud2]
        exact List.mem_filterMap.mpr ⟨u, hu', by rw [hq, he.2]⟩
    · rintro ⟨hk, hm | ⟨hm, hall⟩⟩
      · obtain ⟨kv, hkv⟩ := Option.isSome_iff_exists.mp (hu e hm)
        refine List.mem_filter.mpr ⟨?_, hk⟩
        refine List.mem_map.mpr ⟨(kv, e), ?_, rfl⟩
        exact (alUpdate_mem_iff ud od hod3 hud3 kv e).mpr
          (Or.inl ((hud4 kv e).mpr ⟨hm, hkv⟩))
      · obtain ⟨kv, hkv⟩ := Option.isSome_iff_exists.mp (ho e hm)
        refine List.mem_filter.mpr ⟨?_, hk⟩
        refine List.mem_map.mpr ⟨(kv, e), ?_, rfl⟩
        refine (alUpdate_mem_iff ud od hod3 hud3 kv e).mpr
          (Or.inr ⟨(hod4 kv e).mpr ⟨hm, hkv⟩, ?_⟩)
        rw [hud2]
        intro hq
        obtain ⟨u, hu', hgu⟩ := List.mem_filterMap.mp hq
        exact hall u hu' (by rw [hgu, hkv])

/-- Witness for C1 (amended) at the docstring example of the source: ids 1,
2, 11 against updates for ids 1, 3 and a removal of id 11. -/
theorem merge_lists_spec_witness :
    ∃ res, merge_lists
        [[("id", PyVal.str "1"), ("updated", PyVal.str "n")],
         [("id", PyVal.str "2"), ("updated", PyVal.str "n")],
         [("id", PyVal.str "11"), ("updated", PyVal.str "n")]]
        [[("id", PyVal.str "1"), ("updated", PyVal.str "y")],
         [("id", PyVal.str "3"), ("updated", PyVal.str "y")],
         [("id", PyVal.str "11"), ("updated", PyVal.str "n"), ("remove", PyVal.bool true)]]
        "id" = some res
      ∧ ∀ e, e ∈ res ↔
          (keepsElement e = true
            ∧ (e ∈ [[("id", PyVal.str "1"), ("updated", PyVal.str "y")],
                    [("id", PyVal.str "3"), ("updated", PyVal.str "y")],
                    [("id", PyVal.str "11"), ("updated", PyVal.str "n"), ("remove", PyVal.bool true)]]
              ∨ (e ∈ [[("id", PyVal.str "1"), ("updated", PyVal.str "n")],
                      [("id", PyVal.str "2"), ("updated", PyVal.str "n")],
                      [("id", PyVal.str "11"), ("updated", PyVal.str "n")]]
                  ∧ ∀ u ∈ [[("id", PyVal.str "1"), ("updated", PyVal.str "y")],
                           [("id", PyVal.str "3"), ("updated", PyVal.str "y")],
                           [("id", PyVal.str "11"), ("updated", PyVal.str "n"), ("remove", PyVal.bool true)]],
                      alGet u "id" ≠ alGet e "id"))) :=
  merge_lists_spec _ _ "id" (by decide) (by decide) (by decide) (by decide)


theorem alGet_alSet_self {κ β : Type} [DecidableEq κ] (d : List (κ × β)) (k : κ) (v : β) :
    alGet (alSet d k v) k = some v := by
  induction d with
  | nil => simp [alSet, alGet]
  | cons hd rest ih =>
      obtain ⟨k', v'⟩ := hd
      by_cases he : k' = k
      · simp [alSet, he, alGet]
      · simp [alSet, he, alGet, ih]

theorem alGet_alSet_ne {κ β : Type} [DecidableEq κ] (d : List (κ × β)) (k : κ) (v : β)
    (k' : κ) (h : k' ≠ k) : alGet (alSet d k v) k' = alGet d k' := by
  have hkk : ¬ (k = k') := fun he => h he.symm
  induction d with
  | nil => simp [alSet, alGet, hkk]
  | cons hd rest ih =>
      obtain ⟨k₀, v₀⟩ := hd
      by_cases he : k₀ = k
      · subst he
        simp [alSet, alGet, hkk]
      · simp [alSet, he, alGet, ih]

theorem updateContextStep_cases (loads : String → Option PyVal) (dumps : PyVal → String)
    (object_keys : List (String × String)) (ic : List (String × String))
    (k : String) (v : PyVal) (ic₁ : List (String × String))
    (h : updateContextStep loads dumps object_keys ic (k, v) = some ic₁) :
    ∃ lat, loads (alGetD ic k "[]") = some lat ∧
      (match alGet object_keys k with
       | some ok => ∃ latL updL merged,
           asObjList lat = some latL ∧ asObjList v = some updL
           ∧ merge_lists latL updL ok = some merged
           ∧ ic₁ = alSet ic k
               (dumps (PyVal.list (PyList.ofList (merged.map fun d => PyVal.dict (PyDict.ofList d)))))
       | Option.none => ic₁ = alSet ic k (dumps v)) := by
  cases hl : loads (alGetD ic k "[]") with
  | none => simp [updateContextStep, hl] at h
  | some lat =>
      refine ⟨lat, rfl, ?_⟩
      cases ho : alGet object_keys k with
      | none =>
          simp [updateContextStep, hl, ho] at h
          exact h.symm
      | some ok =>
          cases h1 : asObjList lat with
          | none => simp [updateContextStep, hl, ho, h1] at h
          | some latL =>
              cases h2 : asObjList v with
              | none => simp [updateContextStep, hl, ho, h1, h2] at h
              | some updL =>
                  cases h3 : merge_lists latL updL ok with
                  | none => simp [updateContextStep, hl, ho, h1, h2, h3] at h
                  | some merged =>
                      simp [updateContextStep, hl, ho, h1, h2, h3] at h
                      exact ⟨latL, updL, merged, rfl, rfl, h3, h.symm⟩

theorem updateContextStep_shape (loads : String → Option PyVal) (dumps : PyVal → String)
    (object_keys : List (String × String)) (ic : List (String × String))
    (k : String) (v : PyVal) (ic₁ : List (String × String))
    (h : updateContextStep loads dumps object_keys ic (k, v) = some ic₁) :
    ∃ x, ic₁ = alSet ic k x := by
  obtain ⟨lat, _, hbr⟩ := updateContextStep_cases loads dumps object_keys ic k v ic₁ h
  cases ho : alGet object_keys k with
  | none => rw [ho] at hbr; exact ⟨_, hbr⟩
  | some ok =>
      rw [ho] at hbr
      obtain ⟨latL, updL, merged, _, _, _, hic⟩ := hbr
      exact ⟨_, hic⟩

theorem updateContextFold_frame (loads : String → Option PyVal) (dumps : PyVal → String)
    (object_keys : List (String × String)) :
    ∀ (ctx : List (String × PyVal)) (ic ic' : List (String × String)),
    List.foldlM (updateContextStep loads dumps object_keys) ic ctx = some ic' →
    ∀ k, k ∉ ctx.map Prod.fst → alGet ic' k = alGet ic k := by
  intro ctx
  induction ctx with
  | nil =>
      intro ic ic' h k _
      simp only [List.foldlM_nil, Option.pure_def] at h
      rw [Option.some.inj h]
  | cons hd rest ih =>
      intro ic ic' h k hk
      obtain ⟨k₀, v₀⟩ := hd
      rw [List.foldlM_cons] at h
      cases hstep : updateContextStep loads dumps object_keys ic (k₀, v₀) with
      | none =>
          rw [hstep] at h
          simp only [Option.bind_eq_bind, Option.none_bind] at h
          exact Option.noConfusion h
      | some ic₁ =>
          rw [hstep] at h
          simp only [Option.bind_eq_bind, Option.some_bind] at h
          have hk₀ : k ≠ k₀ := fun he => hk (by simp [he])
          have hrest : k ∉ rest.map Prod.fst := fun hm => hk (by simp [hm])
          obtain ⟨x, hx⟩ := updateContextStep_shape loads dumps object_keys ic k₀ v₀ ic₁ hstep
          rw [ih ic₁ ic' h k hrest, hx, alGet_alSet_ne ic k₀ x k hk₀]

theorem updateContextFold_mem (loads : String → Option PyVal) (dumps : PyVal → String)
    (object_keys : List (String × String)) :
    ∀ (ctx : List (String × PyVal)) (ic ic' : List (String × String)),
    (ctx.map Prod.fst).Nodup →
    List.foldlM (updateContextStep loads dumps object_keys) ic ctx = some ic' →
    ∀ k v, (k, v) ∈ ctx →
      ∃ lat, loads (alGetD ic k "[]") = some lat ∧
        (match alGet object_keys k with
         | some ok => ∃ latL updL merged,
             asObjList lat = some latL ∧ asObjList v = some updL
             ∧ merge_lists latL updL ok = some merged
             ∧ alGet ic' k = some
                 (dumps (PyVal.list (PyList.ofList (merged.map fun d => PyVal.dict (PyDict.ofList d)))))
         | Option.none => alGet ic' k = some (dumps v)) := by
  intro ctx
  induction ctx with
  | nil =>
      intro ic ic' _ _ k v hm
      exact absurd hm (List.not_mem_nil _)
  | cons hd rest ih =>
      intro ic ic' hnd h k v hm
      obtain ⟨k₀, v₀⟩ := hd
      rw [List.map_cons] at hnd
      obtain ⟨hk₀rest, hndrest⟩ := List.nodup_cons.mp hnd
      rw [List.foldlM_cons] at h
      cases hstep : updateContextStep loads dumps object_keys ic (k₀, v₀) with
      | none =>
          rw [hstep] at h
          simp only [Option.bind_eq_bind, Option.none_bind] at h
          exact Option.noConfusion h
      | some ic₁ =>
          rw [hstep] at h
          simp only [Option.bind_eq_bind, Option.some_bind] at h
          rcases List.mem_cons.mp hm with hm | hm
          · have hkk : k = k₀ := congrArg Prod.fst hm
            have hvv : v = v₀ := congrArg Prod.snd hm
            subst hkk; subst hvv
            obtain ⟨lat, hl, hbr⟩ := updateContextStep_cases loads dumps object_keys ic k v ic₁ hstep
            refine ⟨lat, hl, ?_⟩
            have hfinal : alGet ic' k = alGet ic₁ k :=
              updateContextFold_frame loads dumps object_keys rest ic₁ ic' h k hk₀rest
            cases ho : alGet object_keys k with
            | none =>
                rw [ho] at hbr
                have hbr' : ic₁ = alSet ic k (dumps v) := hbr
                show alGet ic' k = some (dumps v)
                rw [hfinal, hbr', alGet_alSet_self]
            | some ok =>
                rw [ho] at hbr
                have hbr' : ∃ latL updL merged,
                    asObjList lat = some latL ∧ asObjList v = some updL
                    ∧ merge_lists latL updL ok = some merged
                    ∧ ic₁ = alSet ic k (dumps (PyVal.list (PyList.ofList
                        (merged.map fun d => PyVal.dict (PyDict.ofList d))))) := hbr
                obtain ⟨latL, updL, merged, hb1, hb2, hb3, hb4⟩ := hbr'
                exact ⟨latL, updL, merged, hb1, hb2, hb3, by rw [hfinal, hb4, alGet_alSet_self]⟩
          · have hkrest : k ∈ rest.map Prod.fst := List.mem_map.mpr ⟨(k, v), hm, rfl⟩
            have hkk₀ : k ≠ k₀ := fun he => hk₀rest (he ▸ hkrest)
            obtain ⟨x, hx⟩ := updateContextStep_shape loads dumps object_keys ic k₀ v₀ ic₁ hstep
            have hread : alGetD ic₁ k "[]" = alGetD ic k "[]" := by
              unfold alGetD
              rw [hx, alGet_alSet_ne ic k₀ x k hkk₀]
            have hrec := ih ic₁ ic' hndrest h k v hm
            rwa [hread] at hrec

/-- C3: when `update_integration_context` returns, the version returned is
the one obtained from the versioned read, and for every key of `context` the
returned dict holds: `json.dumps` of the `merge_lists` merge of the
JSON-decoded stored value (the stored entry defaulting to `'[]'` when
absent) with the given value, when the key appears in `object_keys`; and
`json.dumps` of the given value otherwise.  (The keys of a Python dict
`context` are distinct, whence the `Nodup` hypothesis.) -/
theorem update_integration_context_spec (loads : String → Option PyVal)
    (dumps : PyVal → String) (context : List (String × PyVal))
    (object_keys : List (String × String)) (stored : List (String × String))
    (version : Int) (ic' : List (String × String)) (ver' : Int)
    (hnd : (context.map Prod.fst).Nodup)
    (h : update_integration_context loads dumps context object_keys stored version
          = some (ic', ver')) :
    ver' = version
    ∧ ∀ k v, (k, v) ∈ context →
        ∃ lat, loads (alGetD stored k "[]") = some lat ∧
          (match alGet object_keys k with
           | some ok => ∃ latL updL merged,
               asObjList lat = some latL ∧ asObjList v = some updL
               ∧ merge_lists latL updL ok = some merged
               ∧ alGet ic' k = some
                   (dumps (PyVal.list (PyList.ofList (merged.map fun d => PyVal.dict (PyDict.ofList d)))))
           | Option.none => alGet ic' k = some (dumps v)) := by
  cases hf : List.foldlM (updateContextStep loads dumps object_keys) stored context with
  | none =>
      unfold update_integration_context at h
      rw [hf] at h
      exact Option.noConfusion h
  | some ic0 =>
      unfold update_integration_context at h
      rw [hf] at h
      have hp := Option.some.inj h
      have hic : ic0 = ic' := congrArg Prod.fst hp
      have hv : version = ver' := congrArg Prod.snd hp
      subst hic
      refine ⟨hv.symm, ?_⟩
      exact updateContextFold_mem loads dumps object_keys context stored ic0 hnd hf

/-- Witness for C3 at a concrete input: one context key, mapped in
`object_keys`, merged against an empty stored context. -/
theorem update_integration_context_spec_witness :
    (7 : Int) = 7
    ∧ ∀ k v, (k, v) ∈ [("k", PyVal.list PyList.nil)] →
        ∃ lat, loadsEmptyList (alGetD ([] : List (String × String)) k "[]") = some lat ∧
          (match alGet [("k", "id")] k with
           | some ok => ∃ latL updL merged,
               asObjList lat = some latL ∧ asObjList v = some updL
               ∧ merge_lists latL updL ok = some merged
               ∧ alGet [("k", "0")] k = some
                   (dumpsConst (PyVal.list (PyList.ofList (merged.map fun d => PyVal.dict (PyDict.ofList d)))))
           | Option.none => alGet [("k", "0")] k = some (dumpsConst v)) :=
  update_integration_context_spec loadsEmptyList dumpsConst
    [("k", PyVal.list PyList.nil)] [("k", "id")] [] 7 [("k", "0")] 7
    (by decide) (by decide)

/-- C8: `update_integration_context` leaves every stored key that is not a
key of the given `context` dict unchanged: the lookup in the returned dict
agrees with the lookup in the stored dict on all such keys. -/
theorem update_integration_context_frame (loads : String → Option PyVal)
    (dumps : PyVal → String) (context : List (String × PyVal))
    (object_keys : List (String × String)) (stored : List (String × String))
    (version : Int) (ic' : List (String × String)) (ver' : Int)
    (h : update_integration_context loads dumps context object_keys stored version
          = some (ic', ver')) :
    ∀ k, k ∉ context.map Prod.fst → alGet ic' k = alGet stored k := by
  cases hf : List.foldlM (updateContextStep loads dumps object_keys) stored context with
  | none =>
      unfold update_integration_context at h
      rw [hf] at h
      exact Option.noConfusion h
  | some ic0 =>
      unfold update_integration_context at h
      rw [hf] at h
      have hic : ic0 = ic' := congrArg Prod.fst (Option.some.inj h)
      subst hic
      exact updateContextFold_frame loads dumps object_keys context stored ic0 hf

/-- Witness for C8 at a concrete input: the stored key `other` is not a key
of the updated context dict and keeps its value. -/
theorem update_integration_context_frame_witness :
    alGet [("other", "x"), ("k", "0")] "other" = alGet [("other", "x")] "other" :=
  update_integration_context_frame loadsEmptyList dumpsConst
    [("k", PyVal.none)] [] [("other", "x")] 5 [("other", "x"), ("k", "0")] 5
    (by decide) "other" (by decide)

theorem charEq_of_toNat_eq (a b : Char) (h : a.toNat = b.toNat) : a = b := by
  have hv : a.val.toNat = b.val.toNat := h
  exact Char.ext (UInt32.eq_of_val_eq (Fin.eq_of_val_eq hv))

theorem strLtChars_trans :
    ∀ a b c : List Char, strLtChars a b = true → strLtChars b c = true →
      strLtChars a c = true := by
  intro a
  induction a with
  | nil =>
      intro b c hab hbc
      cases b with
      | nil => exact hbc
      | cons bh bt =>
          cases c with
          | nil => simp [strLtChars] at hbc
          | cons ch ct => simp [strLtChars]
  | cons ah at' ih =>
      intro b c hab hbc
      cases b with
      | nil => simp [strLtChars] at hab
      | cons bh bt =>
          cases c with
          | nil => simp [strLtChars] at hbc
          | cons ch ct =>
              simp only [strLtChars] at hab hbc ⊢
              by_cases h1 : ah.toNat < bh.toNat
              · by_cases h2 : bh.toNat < ch.toNat
                · simp [show ah.toNat < ch.toNat by omega]
                · simp only [h2, if_false] at hbc
                  by_cases h3 : bh.toNat = ch.toNat
                  · simp [show ah.toNat < ch.toNat by omega]
                  · simp [h3] at hbc
              · simp only [h1, if_false] at hab
                by_cases h3 : ah.toNat = bh.toNat
                · simp only [h3, if_true] at hab
                  by_cases h2 : bh.toNat < ch.toNat
                  · simp [h3, h2]
                  · simp only [h2, if_false] at hbc
                    by_cases h4 : bh.toNat = ch.toNat
                    · simp only [h4, if_true] at hbc
                      have : ¬ ah.toNat < ch.toNat := by omega
                      simp [this, h3, h4, ih bt ct hab hbc]
                    · simp [h4] at hbc
                · simp [h3] at hab

theorem strLtChars_total :
    ∀ a b : List Char, strLtChars a b = true ∨ strLtChars b a = true ∨ a = b := by
  intro a
  induction a with
  | nil =>
      intro b
      cases b with
      | nil => exact Or.inr (Or.inr rfl)
      | cons bh bt => exact Or.inl (by simp [strLtChars])
  | cons ah at' ih =>
      intro b
      cases b with
      | nil => exact Or.inr (Or.inl (by simp [strLtChars]))
      | cons bh bt =>
          by_cases h1 : ah.toNat < bh.toNat
          · exact Or.inl (by simp [strLtChars, h1])
          · by_cases h2 : bh.toNat < ah.toNat
            · exact Or.inr (Or.inl (by simp [strLtChars, h2]))
            · have he : ah.toNat = bh.toNat := by omega
              have hc : ah = bh := charEq_of_toNat_eq ah bh he
              rcases ih bt with h | h | h
              · exact Or.inl (by simp [strLtChars, h1, he, h])
              · exact Or.inr (Or.inl (by
                  simp [strLtChars, h2, he.symm, h]))
              · exact Or.inr (Or.inr (by rw [hc, h]))

theorem pyStrLe_trans (a b c : String) (hab : pyStrLe a b = true)
    (hbc : pyStrLe b c = true) : pyStrLe a c = true := by
  unfold pyStrLe at *
  rcases Bool.or_eq_true_iff.mp hab with h1 | h1
  · rcases Bool.or_eq_true_iff.mp hbc with h2 | h2
    · exact Bool.or_eq_true_iff.mpr (Or.inl (strLtChars_trans _ _ _ h1 h2))
    · have : b = c := by simpa using h2
      subst this
      exact Bool.or_eq_true_iff.mpr (Or.inl h1)
  · have : a = b := by simpa using h1
    subst this
    exact hbc

theorem pyStrLe_total (a b : String) : (pyStrLe a b || pyStrLe b a) = true := by
  rcases strLtChars_total a.toList b.toList with h | h | h
  · have hl : pyStrLt a b = true := h
    simp [pyStrLe, hl]
  · have hl : pyStrLt b a = true := h
    simp [pyStrLe, hl]
  · have he : a = b := String.ext h
    subst he
    simp [pyStrLe]

/-- C9: for a `None` or empty table argument, `tableToMarkdown` returns
exactly the `'### ' + name` title line (present exactly when `name` is
non-empty), then the metadata line when given, then `'**No entries.**\n'`,
with no further rendering; and for a table whose first entry is a dict, with
no (or an empty) `headers` argument, the resolved column headers are exactly
the keys of the first entry (a permutation of them) in ascending sorted
order. -/
theorem tableToMarkdown_spec (S : PyStrFns) :
    (∀ (name : String) (metadata : Option String) (headers : Option (List String))
        (removeNull : Bool) (t : PyVal),
      (t = PyVal.none ∨ t = PyVal.str "" ∨ t = PyVal.list PyList.nil ∨ t = PyVal.dict PyDict.nil) →
      tableToMarkdown S name t headers removeNull metadata
        = Except.ok ((if name ≠ "" then "### " ++ name ++ "\n" else "")
            ++ (match metadata with
                | some m => if m ≠ "" then m ++ "\n" else ""
                | Option.none => "")
            ++ "**No entries.**\n"))
    ∧ (∀ (d0 : PyDict) (rest : List PyVal) (headers : Option (List String)),
        headersFalsy headers = true →
        ∃ hs, resolveHeaders (PyVal.dict d0 :: rest) headers
            = Except.ok (PyVal.dict d0 :: rest, hs)
          ∧ hs.Perm (alKeys d0.toList)
          ∧ hs.Pairwise (fun a b => pyStrLe a b = true)) := by
  constructor
  · intro name metadata headers removeNull t ht
    rcases ht with h | h | h | h <;> subst h <;> cases metadata <;>
      simp [tableToMarkdown, pyTruthy]
  · intro d0 rest headers hf
    refine ⟨List.mergeSort (alKeys d0.toList) pyStrLe, ?_, ?_, ?_⟩
    · simp [resolveHeaders, hf]
    · exact List.mergeSort_perm (alKeys d0.toList) pyStrLe
    · exact List.sorted_mergeSort
        (fun a b c => pyStrLe_trans a b c) pyStrLe_total (alKeys d0.toList)

/-- Witness for C9: a `None` table with a title renders the title and the
no-entries line only; a two-key single-entry table without headers resolves
its headers to the sorted keys. -/
theorem tableToMarkdown_spec_witness :
    tableToMarkdown pyStrFnsConst "T" PyVal.none Option.none false Option.none
      = Except.ok ((if ("T" : String) ≠ "" then "### " ++ "T" ++ "\n" else "")
          ++ (match (Option.none : Option String) with
              | some m => if m ≠ "" then m ++ "\n" else ""
              | Option.none => "")
          ++ "**No entries.**\n")
    ∧ ∃ hs, resolveHeaders
          [PyVal.dict (PyDict.cons "b" PyVal.none (PyDict.cons "a" PyVal.none PyDict.nil))]
          Option.none
        = Except.ok ([PyVal.dict (PyDict.cons "b" PyVal.none (PyDict.cons "a" PyVal.none PyDict.nil))], hs)
      ∧ hs.Perm (alKeys (PyDict.cons "b" PyVal.none (PyDict.cons "a" PyVal.none PyDict.nil)).toList)
      ∧ hs.Pairwise (fun a b => pyStrLe a b = true) :=
  ⟨(tableToMarkdown_spec pyStrFnsConst).1 "T" Option.none Option.none false PyVal.none
      (Or.inl rfl),
   (tableToMarkdown_spec pyStrFnsConst).2
      (PyDict.cons "b" PyVal.none (PyDict.cons "a" PyVal.none PyDict.nil)) [] Option.none rfl⟩
